import Mathlib

/-!
Verification of the fractal evaluation and coordinate-mapping engine of the
`mandelbrotSet` repository (a Next.js Mandelbrot explorer).  The JavaScript
numbers of the source are embedded as exact rationals (`ℚ`): every arithmetic
operation the embedded code performs (+, −, ×, /, min, abs, floor, comparison)
is translated literally; the only transcendental the source uses, `Math.sin`
in the worker's red-channel modulation, is abstracted as an arbitrary function
parameter `s : ℚ → ℚ` so that every statement holds for every possible sine.
-/

namespace Mandelbrot

/-- The escape-time evaluator, from `mandelbrot` in
`src/app/components/FractalExplorer.tsx` (and the identical copy in the web
worker file): starting from `x = 0, y = 0, iter = 0`, while
`x*x + y*y <= 4 && iter < maxIter` do `x, y ← x*x − y*y + cx, 2*x*y + cy`,
`iter++`.  The loop counter is represented by the remaining fuel
`maxIter − iter`, which decreases by one each iteration. -/
def mandelbrotAux (cx cy : ℚ) : ℚ → ℚ → ℕ → ℕ → ℕ
  | _, _, iter, 0 => iter
  | x, y, iter, fuel + 1 =>
    if x * x + y * y ≤ 4 then
      mandelbrotAux cx cy (x * x - y * y + cx) (2 * x * y + cy) (iter + 1) fuel
    else iter

/-- `mandelbrot(cx, cy, maxIter)` of the source: run the escape loop from the
origin with `iter = 0`. -/
def mandelbrot (cx cy : ℚ) (maxIter : ℕ) : ℕ :=
  mandelbrotAux cx cy 0 0 0 maxIter

/-- One step of the quadratic orbit `z ← z² + c` in real coordinates, exactly
the loop body of `mandelbrot`. -/
def orbitStep (cx cy : ℚ) (p : ℚ × ℚ) : ℚ × ℚ :=
  (p.1 * p.1 - p.2 * p.2 + cx, 2 * p.1 * p.2 + cy)

/-- The orbit after `k` loop iterations, starting from the origin. -/
def orbit (cx cy : ℚ) (k : ℕ) : ℚ × ℚ :=
  (orbitStep cx cy)^[k] (0, 0)

/-- Squared modulus used in the loop guard. -/
def sqNorm (p : ℚ × ℚ) : ℚ :=
  p.1 * p.1 + p.2 * p.2

lemma mandelbrotAux_le (cx cy : ℚ) (x y : ℚ) (iter fuel : ℕ) :
    mandelbrotAux cx cy x y iter fuel ≤ iter + fuel := by
  induction fuel generalizing x y iter with
  | zero => simp [mandelbrotAux]
  | succ n ih =>
    rw [mandelbrotAux]
    split
    · exact le_trans (ih _ _ _) (by omega)
    · omega

lemma mandelbrotAux_ge (cx cy : ℚ) (x y : ℚ) (iter fuel : ℕ) :
    iter ≤ mandelbrotAux cx cy x y iter fuel := by
  induction fuel generalizing x y iter with
  | zero => simp [mandelbrotAux]
  | succ n ih =>
    rw [mandelbrotAux]
    split
    · exact le_trans (by omega) (ih _ _ _)
    · exact le_refl _

lemma mandelbrotAux_eq_iff (cx cy : ℚ) (x y : ℚ) (iter fuel : ℕ) :
    mandelbrotAux cx cy x y iter fuel = iter + fuel ↔
      ∀ k < fuel, sqNorm ((orbitStep cx cy)^[k] (x, y)) ≤ 4 := by
  induction fuel generalizing x y iter with
  | zero => simp [mandelbrotAux]
  | succ n ih =>
    rw [mandelbrotAux]
    split
    case isTrue h =>
      have step : (orbitStep cx cy) (x, y) =
          (x * x - y * y + cx, 2 * x * y + cy) := rfl
      constructor
      · intro he k hk
        cases k with
        | zero => simpa [sqNorm] using h
        | succ m =>
          have hm : m < n := by omega
          have := (ih (x * x - y * y + cx) (2 * x * y + cy) (iter + 1)).mp
            (by omega) m hm
          simpa [Function.iterate_succ_apply, step] using this
      · intro hall
        have : mandelbrotAux cx cy (x * x - y * y + cx) (2 * x * y + cy)
            (iter + 1) n = (iter + 1) + n := by
          rw [ih]
          intro k hk
          have := hall (k + 1) (by omega)
          simpa [Function.iterate_succ_apply, step] using this
        omega
    case isFalse h =>
      constructor
      · intro he
        exact absurd he (by omega)
      · intro hall
        exact absurd (by simpa [sqNorm] using hall 0 (by omega)) h

/-- **C1.** For every rational pair `(cx, cy)` and every positive `maxIter`,
`mandelbrot cx cy maxIter` terminates with an iteration count in
`[0, maxIter]` (`mandelbrotAux` is structurally recursive on the remaining
fuel `maxIter − iter`), and it returns exactly `maxIter` if and only if no
orbit point reached within `maxIter` steps violates the loop guard
`x² + y² ≤ 4`, i.e. the loop was never exited by the escape condition. -/
theorem mandelbrot_range_and_sentinel (cx cy : ℚ) (maxIter : ℕ)
    (hpos : 0 < maxIter) :
    mandelbrot cx cy maxIter ≤ maxIter ∧
      (mandelbrot cx cy maxIter = maxIter ↔
        ∀ k < maxIter, sqNorm (orbit cx cy k) ≤ 4) := by
  refine ⟨by simpa using mandelbrotAux_le cx cy 0 0 0 maxIter, ?_⟩
  have := mandelbrotAux_eq_iff cx cy 0 0 0 maxIter
  simpa [mandelbrot, orbit] using this

/-- Witness for C1 at `(cx, cy) = (2, 2)`, `maxIter = 3`. -/
theorem mandelbrot_range_and_sentinel_witness :
    0 < 3 ∧
      (mandelbrot 2 2 3 ≤ 3 ∧
        (mandelbrot 2 2 3 = 3 ↔ ∀ k < 3, sqNorm (orbit 2 2 k) ≤ 4)) :=
  ⟨by decide, mandelbrot_range_and_sentinel 2 2 3 (by decide)⟩

lemma mandelbrotAux_zero_orbit (iter fuel : ℕ) :
    mandelbrotAux 0 0 0 0 iter fuel = iter + fuel := by
  induction fuel generalizing iter with
  | zero => simp [mandelbrotAux]
  | succ n ih =>
    rw [mandelbrotAux]
    norm_num
    rw [ih]
    omega

/-- **C6.** `mandelbrot 0 0 100 = 100`: the orbit of the origin stays at the
origin, the escape condition never fires, and the loop runs to the cap,
producing the in-set sentinel value. -/
theorem mandelbrot_origin_eq_maxIter : mandelbrot 0 0 100 = 100 := by
  simpa [mandelbrot] using mandelbrotAux_zero_orbit 0 100

/-- **C7.** `mandelbrot 2 2 100 < 5`: the point `c = 2 + 2i` escapes almost
immediately (in fact after a single iteration). -/
theorem mandelbrot_two_two_lt_five : mandelbrot 2 2 100 < 5 := by
  have h : mandelbrot 2 2 100 = 1 := by
    rw [mandelbrot, show (100 : ℕ) = 99 + 1 from rfl, mandelbrotAux]
    rw [if_pos (by norm_num)]
    rw [show (99 : ℕ) = 98 + 1 from rfl, mandelbrotAux]
    rw [if_neg (by norm_num)]
  omega

/-- **C10.** For every `(cx, cy)` and every `maxIter ≥ 1`, the evaluator
returns at least `1` (hence never `0`): the orbit starts at the origin, where
the guard `x² + y² ≤ 4` holds, so the loop body runs at least once before any
escape can be observed — even when `cx² + cy² > 4`. -/
theorem mandelbrot_pos (cx cy : ℚ) (maxIter : ℕ) (h : 1 ≤ maxIter) :
    1 ≤ mandelbrot cx cy maxIter := by
  obtain ⟨n, rfl⟩ : ∃ n, maxIter = n + 1 := ⟨maxIter - 1, by omega⟩
  unfold mandelbrot mandelbrotAux
  norm_num
  exact mandelbrotAux_ge cx cy _ _ 1 n

/-- Witness for C10 at `(cx, cy) = (3, 3)` (a point outside the radius-2
disk) and `maxIter = 1`. -/
theorem mandelbrot_pos_witness : 1 ≤ 1 ∧ 1 ≤ mandelbrot 3 3 1 :=
  ⟨by decide, mandelbrot_pos 3 3 1 (by decide)⟩

/-- The view state of the explorer: `{ zoom, centerX, centerY }`
(`ViewState` in `FractalExplorer.tsx`). -/
structure ViewState where
  zoom : ℚ
  centerX : ℚ
  centerY : ℚ
deriving DecidableEq

/-- The screen-to-complex-plane transform as the spec states it (§4.2):
`scale = min(width, height)/3.5 * view.zoom`,
`x = (px − width/2)/scale + view.centerX`,
`y = (py − height/2)/scale + view.centerY`.  (`3.5 = 7/2`.) -/
def toComplexSpec (px py width height : ℚ) (v : ViewState) : ℚ × ℚ :=
  let scale := min width height / (7 / 2) * v.zoom
  ((px - width / 2) / scale + v.centerX, (py - height / 2) / scale + v.centerY)

/-- The worker tile path's pixel-to-plane mapping, from the web worker source:
`zoomScale = Math.min(width, height) / 3.5 * zoom`;
`x = (px - canvasCenterX) / zoomScale + centerX` and likewise for `y`. -/
def workerToComplex (width height centerX centerY zoom : ℚ)
    (px py : ℚ) : ℚ × ℚ :=
  let zoomScale := min width height / (7 / 2) * zoom
  let canvasCenterX := width / 2
  let canvasCenterY := height / 2
  ((px - canvasCenterX) / zoomScale + centerX,
   (py - canvasCenterY) / zoomScale + centerY)

/-- The CPU 2D fallback's pixel-to-plane mapping, from `renderMandelbrot` in
`FractalExplorer.tsx`: `zoom = Math.min(width, height) / 3.5 * view.zoom`;
`x = (px - centerX) / zoom + view.centerX` and likewise for `y`, where
`centerX = width / 2`, `centerY = height / 2`. -/
def cpuToComplex (width height : ℚ) (view : ViewState) (px py : ℚ) : ℚ × ℚ :=
  let zoom := min width height / (7 / 2) * view.zoom
  let centerX := width / 2
  let centerY := height / 2
  ((px - centerX) / zoom + view.centerX, (py - centerY) / zoom + view.centerY)

/-- The WebGPU fragment shader's uv-to-plane mapping, from `fs_main` in the
WGSL source embedded in `FractalExplorer.tsx`:
`px = uv.x * screenWidth`, `py = (1 - uv.y) * screenHeight`, then
`zoomScale = min(screenWidth, screenHeight) / 3.5 * zoom` and the same
centered-division formula. -/
def shaderToComplex (screenWidth screenHeight : ℚ) (v : ViewState)
    (uvx uvy : ℚ) : ℚ × ℚ :=
  let px := uvx * screenWidth
  let py := (1 - uvy) * screenHeight
  let zoomScale := min screenWidth screenHeight / (7 / 2) * v.zoom
  let centerX := screenWidth / 2
  let centerY := screenHeight / 2
  ((px - centerX) / zoomScale + v.centerX,
   (py - centerY) / zoomScale + v.centerY)

/-- The 3D height-map path's grid-to-plane mapping, from
`generateMandelbrotHeightMap` in `FractalExplorer.tsx`:
`fx = ((x / meshResolution) - 0.5) * 4 / viewState.zoom + viewState.centerX`
and likewise for `fy`.  (The source also computes a `zoomScale` with the
`min(width, height) / 3.5` formula on the line above, but never uses it:
the grid mapping depends only on `meshResolution` and the view state, not on
the canvas dimensions.) -/
def heightMapToComplex (meshResolution : ℕ) (v : ViewState)
    (x y : ℕ) : ℚ × ℚ :=
  (((x : ℚ) / meshResolution - 1 / 2) * 4 / v.zoom + v.centerX,
   ((y : ℚ) / meshResolution - 1 / 2) * 4 / v.zoom + v.centerY)

/-- **C2 (counterexample).** The 3D height-map path does not map its grid
coordinates through the shared `min(width, height)/3.5` formula: at mesh
resolution 128, canvas 350 × 350, and view `(zoom, centerX, centerY) =
(1, 0, 0)`, grid point `(0, 0)` maps to `(−2, −2)` under the height-map
mapping but to `(−7/4, −7/4)` under the shared formula. -/
theorem heightMap_ne_sharedFormula :
    heightMapToComplex 128 ⟨1, 0, 0⟩ 0 0 ≠ toComplexSpec 0 0 350 350 ⟨1, 0, 0⟩ := by
  simp only [heightMapToComplex, toComplexSpec, Prod.mk.injEq, not_and]
  intro h
  norm_num at h

/-- **C2 (amended).** The CPU 2D fallback, the worker tile path, and the GPU
shader all compute the shared transform
`scale = min(width, height)/3.5 * zoom`, `x = (px − width/2)/scale + centerX`,
`y = (py − height/2)/scale + centerY` (the shader after converting its uv
coordinates to the pixel `(uv.x·width, (1−uv.y)·height)`); the 3D height-map
path instead maps grid `(x, y)` to
`((x/res − 1/2)·4/zoom + centerX, (y/res − 1/2)·4/zoom + centerY)`,
independent of the canvas dimensions. -/
theorem toComplex_paths_agree :
    (∀ width height centerX centerY zoom px py : ℚ,
        workerToComplex width height centerX centerY zoom px py =
          toComplexSpec px py width height ⟨zoom, centerX, centerY⟩) ∧
    (∀ (width height : ℚ) (v : ViewState) (px py : ℚ),
        cpuToComplex width height v px py = toComplexSpec px py width height v) ∧
    (∀ (width height : ℚ) (v : ViewState) (uvx uvy : ℚ),
        shaderToComplex width height v uvx uvy =
          toComplexSpec (uvx * width) ((1 - uvy) * height) width height v) ∧
    (∀ (res : ℕ) (v : ViewState) (x y : ℕ),
        heightMapToComplex res v x y =
          (((x : ℚ) / res - 1 / 2) * 4 / v.zoom + v.centerX,
           ((y : ℚ) / res - 1 / 2) * 4 / v.zoom + v.centerY)) :=
  ⟨fun _ _ _ _ _ _ _ => rfl, fun _ _ _ _ _ => rfl,
   fun _ _ _ _ _ => rfl, fun _ _ _ _ => rfl⟩

/-- The zoom-at-cursor view update, the body of the `setViewState` call in
`handleWheel` in `FractalExplorer.tsx`:
`currentZoom = min(width, height)/3.5 * prev.zoom`;
`newZoom = prev.zoom * zoomFactor`;
`mouseReal = (mouse − dim/2)/currentZoom + prev.center`;
`newCenter = mouseReal − (mouse − dim/2)/(currentZoom * zoomFactor)`. -/
def zoomAtCursor (width height mouseX mouseY zoomFactor : ℚ)
    (prev : ViewState) : ViewState :=
  let currentZoom := min width height / (7 / 2) * prev.zoom
  let newZoom := prev.zoom * zoomFactor
  let mouseRealX := (mouseX - width / 2) / currentZoom + prev.centerX
  let mouseRealY := (mouseY - height / 2) / currentZoom + prev.centerY
  let newCenterX := mouseRealX - (mouseX - width / 2) / (currentZoom * zoomFactor)
  let newCenterY := mouseRealY - (mouseY - height / 2) / (currentZoom * zoomFactor)
  ⟨newZoom, newCenterX, newCenterY⟩

/-- `handleWheel`: the zoom factor is `0.9` when scrolling down
(`deltaY > 0`, zoom out) and `1.1` otherwise (zoom in). -/
def handleWheel (width height mouseX mouseY deltaY : ℚ)
    (prev : ViewState) : ViewState :=
  zoomAtCursor width height mouseX mouseY
    (if 0 < deltaY then 9 / 10 else 11 / 10) prev

/-- **C3.** Zoom-at-cursor leaves the complex-plane point under the cursor
unchanged: for every view with `zoom > 0`, positive `width`, `height`, any
cursor pixel, and any `factor > 0`, mapping the cursor pixel through the
screen-to-plane transform under `zoomAtCursor width height mouseX mouseY
factor v` yields exactly the same point as under `v` (exact arithmetic). -/
theorem zoomAtCursor_fixes_cursor_point (width height mouseX mouseY factor : ℚ)
    (v : ViewState) (hz : 0 < v.zoom) (hw : 0 < width) (hh : 0 < height)
    (hf : 0 < factor) :
    cpuToComplex width height (zoomAtCursor width height mouseX mouseY factor v)
        mouseX mouseY =
      cpuToComplex width height v mouseX mouseY := by
  have hmin : (0 : ℚ) < min width height := lt_min hw hh
  have hcz : min width height / (7 / 2) * v.zoom ≠ 0 := by positivity
  have hcf : min width height / (7 / 2) * v.zoom * factor ≠ 0 := by positivity
  simp only [cpuToComplex, zoomAtCursor, Prod.mk.injEq]
  constructor
  · field_simp
    ring
  · field_simp
    ring

/-- Witness for C3 at `v = (zoom 1, center (0, 0))`, a 7 × 7 canvas, cursor
pixel `(1, 2)`, factor `2`. -/
theorem zoomAtCursor_fixes_cursor_point_witness :
    (0 : ℚ) < 1 ∧ (0 : ℚ) < 7 ∧ (0 : ℚ) < 2 ∧
      cpuToComplex 7 7 (zoomAtCursor 7 7 1 2 2 ⟨1, 0, 0⟩) 1 2 =
        cpuToComplex 7 7 ⟨1, 0, 0⟩ 1 2 :=
  ⟨by decide, by decide, by decide,
    zoomAtCursor_fixes_cursor_point 7 7 1 2 2 ⟨1, 0, 0⟩ (by decide)
      (by decide) (by decide) (by decide)⟩

/-- An RGBA pixel, one value per channel as stored into the
`Uint8ClampedArray`. -/
abbrev RGBA := ℤ × ℤ × ℤ × ℤ

/-- JS `Math.max(0, Math.min(255, z))` as applied to the already-floored
channel values in the worker. -/
def clampByte (z : ℤ) : ℤ := max 0 (min 255 z)

/-- The worker's iteration-to-color mapping, from the `if/else` on
`iter === maxIterations` in the worker's message handler.  The banded base
gradient, the `sin`-based red modulation (with `Math.sin` abstracted as the
parameter `s`), `Math.floor`, and the clamp to `[0, 255]` are translated
literally; the alpha channel is always `255`. -/
def workerColor (s : ℚ → ℚ) (iter maxIterations : ℕ) : RGBA :=
  if iter = maxIterations then (0, 0, 0, 255)
  else
    let normalizedIter : ℚ := (iter : ℚ) / maxIterations
    let base : ℚ × ℚ × ℚ :=
      if normalizedIter < 33 / 100 then
        let t := normalizedIter * 3
        (20 + t * 60, 30 + t * 120, 120 + t * 135)
      else if normalizedIter < 66 / 100 then
        let t := (normalizedIter - 33 / 100) * 3
        (80 + t * 20, 150 + t * 105, 255 - t * 50)
      else
        let t := (normalizedIter - 66 / 100) * 3
        (100 + t * 100, 255 - t * 155, 205 + t * 50)
    let redBoost := s ((iter : ℚ) * (2 / 5)) * (3 / 10) + 3 / 10
    let redIntensity := s ((iter : ℚ) * (3 / 20) + normalizedIter * 6) * 60
    let finalR := ⌊base.1 + redIntensity * redBoost⌋
    let finalG := ⌊base.2.1⌋
    let finalB := ⌊base.2.2⌋
    (clampByte finalR, clampByte finalG, clampByte finalB, 255)

/-- One pixel of the worker's output: map `(px, py)` to the plane, run the
escape-time evaluator, color the result. -/
def workerPixel (s : ℚ → ℚ) (width height centerX centerY zoom : ℚ)
    (maxIterations : ℕ) (px py : ℕ) : RGBA :=
  let c := workerToComplex width height centerX centerY zoom px py
  workerColor s (mandelbrot c.1 c.2 maxIterations) maxIterations

/-- The worker's tile loop: for `py` from `startY` to `endY` (exclusive) and
`px` from `0` to `width`, emit the pixel at `(px, py)`; the write index
`((py − startY) * width + px) * 4` is row-major and consecutive, so the
buffer is exactly this list in order. -/
def tileImage (colorAt : ℕ → ℕ → RGBA) (width startY endY : ℕ) : List RGBA :=
  (List.range (endY - startY)).flatMap fun r =>
    (List.range width).map fun px => colorAt px (startY + r)

/-- The four bytes of a pixel in storage order R, G, B, A. -/
def rgbaBytes (c : RGBA) : List ℤ := [c.1, c.2.1, c.2.2.1, c.2.2.2]

/-- A tile's output buffer as its byte sequence. -/
def tileBytes (colorAt : ℕ → ℕ → RGBA) (width startY endY : ℕ) : List ℤ :=
  (tileImage colorAt width startY endY).flatMap rgbaBytes

/-- `IsPartition s e rs`: the ranges `rs` are contiguous and consecutive,
starting at `s` and ending at `e` (the Tile data model: a contiguous
partition of `[0, height)` in `rowStart` order). -/
def IsPartition : ℕ → ℕ → List (ℕ × ℕ) → Prop
  | s, e, [] => s = e
  | s, e, (a, b) :: rest => s = a ∧ a ≤ b ∧ IsPartition b e rest

instance decIsPartition :
    (s e : ℕ) → (rs : List (ℕ × ℕ)) → Decidable (IsPartition s e rs)
  | s, e, [] => inferInstanceAs (Decidable (s = e))
  | s, e, (a, b) :: rest =>
    haveI := decIsPartition b e rest
    inferInstanceAs (Decidable (s = a ∧ a ≤ b ∧ IsPartition b e rest))

lemma IsPartition.le : ∀ (rs : List (ℕ × ℕ)) (s e : ℕ),
    IsPartition s e rs → s ≤ e := by
  intro rs
  induction rs with
  | nil =>
    intro s e h
    exact le_of_eq h
  | cons hd tl ih =>
    intro s e h
    obtain ⟨a, b⟩ := hd
    obtain ⟨rfl, hab, hrest⟩ := h
    exact le_trans hab (ih b e hrest)

lemma tileImage_append (f : ℕ → ℕ → RGBA) (width s m e : ℕ)
    (hsm : s ≤ m) (hme : m ≤ e) :
    tileImage f width s m ++ tileImage f width m e = tileImage f width s e := by
  unfold tileImage
  have he : e - s = (m - s) + (e - m) := by omega
  rw [he, List.range_add, List.flatMap_append, List.flatMap_map]
  simp only [show ∀ a : ℕ, s + (m - s + a) = m + a from fun a => by omega]

lemma tileBytes_append (f : ℕ → ℕ → RGBA) (width s m e : ℕ)
    (hsm : s ≤ m) (hme : m ≤ e) :
    tileBytes f width s m ++ tileBytes f width m e = tileBytes f width s e := by
  unfold tileBytes
  rw [← List.flatMap_append, tileImage_append f width s m e hsm hme]

lemma tileBytes_partition (f : ℕ → ℕ → RGBA) (width : ℕ) :
    ∀ (rs : List (ℕ × ℕ)) (s e : ℕ), IsPartition s e rs →
      (rs.map fun r => tileBytes f width r.1 r.2).flatten =
        tileBytes f width s e := by
  intro rs
  induction rs with
  | nil =>
    intro s e h
    have : s = e := h
    subst this
    simp [tileBytes, tileImage]
  | cons hd tl ih =>
    intro s e h
    obtain ⟨a, b⟩ := hd
    obtain ⟨rfl, hab, hrest⟩ := h
    simp only [List.map_cons, List.flatten_cons]
    rw [ih b e hrest]
    exact tileBytes_append f width s b e hab (IsPartition.le tl b e hrest)

/-- **C4.** For every worker input `(width, height, center, zoom,
maxIterations)` (and every possible `Math.sin`), and every partition of
`[0, height)` into contiguous consecutive row ranges, concatenating the byte
buffers the worker computation produces for the ranges, in `rowStart` order,
is identical to the byte buffer of a single worker run over `[0, height)`:
tiling does not alter any pixel value. -/
theorem tiling_byte_identical (s : ℚ → ℚ)
    (width height : ℕ) (centerX centerY zoom : ℚ) (maxIterations : ℕ)
    (rs : List (ℕ × ℕ)) (hpart : IsPartition 0 height rs) :
    (rs.map fun r =>
        tileBytes
          (workerPixel s width height centerX centerY zoom maxIterations)
          width r.1 r.2).flatten =
      tileBytes (workerPixel s width height centerX centerY zoom maxIterations)
        width 0 height :=
  tileBytes_partition _ width rs 0 height hpart

/-- Witness for C4: a 2 × 3 frame, `maxIterations = 5`, split into rows
`[0, 1)` and `[1, 3)`. -/
theorem tiling_byte_identical_witness :
    IsPartition 0 3 [(0, 1), (1, 3)] ∧
      ([(0, 1), (1, 3)].map fun r =>
          tileBytes (workerPixel (fun _ => 0) 2 3 0 0 1 5) 2 r.1 r.2).flatten =
        tileBytes (workerPixel (fun _ => 0) 2 3 0 0 1 5) 2 0 3 :=
  ⟨by decide,
    tiling_byte_identical (fun _ => 0) 2 3 0 0 1 5 [(0, 1), (1, 3)] (by decide)⟩

/-- JS `Math.round`: `⌊q + 1/2⌋` (round half up). -/
def jsRound (q : ℚ) : ℤ := ⌊q + 1 / 2⌋

/-- JS `%` on a nonnegative dividend and positive divisor:
`a − b·⌊a/b⌋` (all uses in the source have `a ≥ 0`, `b > 0`, where the JS
truncating remainder coincides with the floor remainder). -/
def jsMod (a b : ℚ) : ℚ := a - b * ⌊a / b⌋

/-- `hslToRgb` from `FractalExplorer.tsx`: chroma `c`, intermediate `x`,
match `m`, six explicit hue sextants each with both bounds tested (any `h`
outside `[0, 1)` leaves `(r, g, b) = (0, 0, 0)`), then
`Math.round((channel + m) * 255)` per channel. -/
def hslToRgb (h s l : ℚ) : ℤ × ℤ × ℤ :=
  let c := (1 - |2 * l - 1|) * s
  let x := c * (1 - |jsMod (h * 6) 2 - 1|)
  let m := l - c / 2
  let rgb : ℚ × ℚ × ℚ :=
    if 0 ≤ h ∧ h < 1 / 6 then (c, x, 0)
    else if 1 / 6 ≤ h ∧ h < 2 / 6 then (x, c, 0)
    else if 2 / 6 ≤ h ∧ h < 3 / 6 then (0, c, x)
    else if 3 / 6 ≤ h ∧ h < 4 / 6 then (0, x, c)
    else if 4 / 6 ≤ h ∧ h < 5 / 6 then (x, 0, c)
    else if 5 / 6 ≤ h ∧ h < 1 then (c, 0, x)
    else (0, 0, 0)
  (jsRound ((rgb.1 + m) * 255), jsRound ((rgb.2.1 + m) * 255),
   jsRound ((rgb.2.2 + m) * 255))

/-- The CPU 2D fallback's iteration-to-color mapping, from `renderMandelbrot`
in `FractalExplorer.tsx` (the iteration cap is the literal `100` there, both
in the `mandelbrot` call and in the sentinel test): `iter === 100` gives pure
black; otherwise hue rotation `(iter * 8) % 360` at full saturation and
lightness `50` through `hslToRgb`; alpha is always `255`. -/
def cpuColor (iter : ℕ) : RGBA :=
  if iter = 100 then (0, 0, 0, 255)
  else
    let hue : ℕ := (iter * 8) % 360
    let saturation : ℚ := 100
    let lightness : ℚ := if iter < 100 then 50 else 0
    let rgb := hslToRgb ((hue : ℚ) / 360) (saturation / 100) (lightness / 100)
    (rgb.1, rgb.2.1, rgb.2.2, 255)

/-- The WGSL `hslToRgb` from the fragment shader: same chroma construction,
but the sextant selection tests only upper bounds, with a final `else` for
the last sextant, and the result stays in `[0, 1]` floats. -/
def shaderHslToRgb (h s l : ℚ) : ℚ × ℚ × ℚ :=
  let c := (1 - |2 * l - 1|) * s
  let x := c * (1 - |jsMod (h * 6) 2 - 1|)
  let m := l - c / 2
  let rgb : ℚ × ℚ × ℚ :=
    if h < 1 / 6 then (c, x, 0)
    else if h < 2 / 6 then (x, c, 0)
    else if h < 3 / 6 then (0, c, x)
    else if h < 4 / 6 then (0, x, c)
    else if h < 5 / 6 then (x, 0, c)
    else (c, 0, x)
  (rgb.1 + m, rgb.2.1 + m, rgb.2.2 + m)

/-- The GPU shader's iteration-to-color mapping, from `fs_main`:
`iter == maxIterations` gives `vec4(0, 0, 0, 1)` (pure black, full
opacity in the shader's `[0, 1]` channel scale); otherwise hue rotation
`(f32(iter) * 8) % 360` at saturation `1`, lightness `0.5`. -/
def shaderColor (iter maxIterations : ℕ) : ℚ × ℚ × ℚ × ℚ :=
  if iter = maxIterations then (0, 0, 0, 1)
  else
    let hue := jsMod ((iter : ℚ) * 8) 360
    let rgb := shaderHslToRgb (hue / 360) 1 (1 / 2)
    (rgb.1, rgb.2.1, rgb.2.2, 1)

/-- The 3D height-map's per-vertex height, from
`generateMandelbrotHeightMap`: `0` at the in-set sentinel (`iter === 100`),
otherwise `(iter / 100) * 2`. -/
def heightMapHeight (iter : ℕ) : ℚ :=
  if iter = 100 then 0 else (iter : ℚ) / 100 * 2

/-- The 3D height-map's per-vertex color (RGB only — the vertex color buffer
has no alpha channel), from `generateMandelbrotHeightMap`: black at the
sentinel, otherwise the same hue rotation through `hslToRgb`. -/
def heightMapColor (iter : ℕ) : ℤ × ℤ × ℤ :=
  if iter = 100 then (0, 0, 0)
  else
    let hue : ℕ := (iter * 8) % 360
    hslToRgb ((hue : ℚ) / 360) 1 (1 / 2)

/-- **C5.** Applying each coloring scheme to an iteration count equal to its
cap produces pure black with full opacity, regardless of the cap: the worker's
banded scheme (for every cap and every `Math.sin`) and the CPU fallback's
hue-rotation scheme (whose cap is the literal `100`) give RGBA
`(0, 0, 0, 255)`; the GPU shader gives `(0, 0, 0, 1)` in its `[0, 1]` scale;
and the 3D height map gives RGB `(0, 0, 0)` (its buffer has no alpha) with
height `0`. -/
theorem colorOf_maxIter_black (maxIter : ℕ) (hpos : 0 < maxIter)
    (s : ℚ → ℚ) :
    workerColor s maxIter maxIter = (0, 0, 0, 255) ∧
      shaderColor maxIter maxIter = (0, 0, 0, 1) ∧
      cpuColor 100 = (0, 0, 0, 255) ∧
      heightMapColor 100 = (0, 0, 0) ∧
      heightMapHeight 100 = 0 := by
  refine ⟨?_, ?_, ?_, ?_, ?_⟩ <;>
    simp [workerColor, shaderColor, cpuColor, heightMapColor, heightMapHeight]

/-- Witness for C5 at `maxIter = 7` with the zero function for `Math.sin`. -/
theorem colorOf_maxIter_black_witness :
    0 < 7 ∧
      (workerColor (fun _ => 0) 7 7 = (0, 0, 0, 255) ∧
        shaderColor 7 7 = (0, 0, 0, 1) ∧
        cpuColor 100 = (0, 0, 0, 255) ∧
        heightMapColor 100 = (0, 0, 0) ∧
        heightMapHeight 100 = 0) :=
  ⟨by decide, colorOf_maxIter_black 7 (by decide) (fun _ => 0)⟩

/-- A screen-space selection rectangle (`SelectionRect` in
`FractalExplorer.tsx`). -/
structure SelectionRect where
  startX : ℚ
  startY : ℚ
  endX : ℚ
  endY : ℚ
deriving DecidableEq

/-- A saved bookmark.  `id` and `timestamp` both come from `Date.now()`
(modelled by the parameter `now`); `name` is the numeric part of the
generated `Bookmark ⟨n⟩` label. -/
structure Bookmark where
  id : ℕ
  name : ℕ
  centerX : ℚ
  centerY : ℚ
  zoom : ℚ
  timestamp : ℕ
deriving DecidableEq

/-- `saveBookmark` from `FractalExplorer.tsx`: take the selection rectangle's
screen-space center and extents, map the center through the shared transform
to fractal coordinates, set the new zoom to
`view.zoom * min(width/rectWidth, height/rectHeight) * 0.8`, and append the
bookmark to the collection. -/
def saveBookmark (width height : ℚ) (v : ViewState) (now : ℕ)
    (rect : SelectionRect) (bookmarks : List Bookmark) : List Bookmark :=
  let rectCenterX := (rect.startX + rect.endX) / 2
  let rectCenterY := (rect.startY + rect.endY) / 2
  let rectWidth := |rect.endX - rect.startX|
  let rectHeight := |rect.endY - rect.startY|
  let currentZoom := min width height / (7 / 2) * v.zoom
  let fractalCenterX := (rectCenterX - width / 2) / currentZoom + v.centerX
  let fractalCenterY := (rectCenterY - height / 2) / currentZoom + v.centerY
  let zoomFactorX := width / rectWidth
  let zoomFactorY := height / rectHeight
  let newZoom := v.zoom * min zoomFactorX zoomFactorY * (4 / 5)
  bookmarks ++
    [⟨now, bookmarks.length + 1, fractalCenterX, fractalCenterY, newZoom, now⟩]

/-- The selection branch of `handleMouseUp` in `FractalExplorer.tsx` (taken
when a shift-drag selection completes in 2D mode): compute the rectangle's
extents and call `saveBookmark` only if `rectWidth > 20 && rectHeight > 20`;
otherwise the bookmark collection is left untouched. -/
def handleMouseUpSelection (width height : ℚ) (v : ViewState) (now : ℕ)
    (rect : SelectionRect) (bookmarks : List Bookmark) : List Bookmark :=
  let rectWidth := |rect.endX - rect.startX|
  let rectHeight := |rect.endY - rect.startY|
  if 20 < rectWidth ∧ 20 < rectHeight then
    saveBookmark width height v now rect bookmarks
  else bookmarks

/-- **C8.** A completed shift-drag selection whose rectangle measures
10 × 10 pixels (below the 20-pixel minimum) creates no bookmark: the
mouse-up handler returns the bookmark collection unchanged (and in
particular never reaches `saveBookmark`). -/
theorem small_selection_no_bookmark (rect : SelectionRect)
    (hw : |rect.endX - rect.startX| = 10) (hh : |rect.endY - rect.startY| = 10)
    (width height : ℚ) (v : ViewState) (now : ℕ) (bms : List Bookmark) :
    handleMouseUpSelection width height v now rect bms = bms := by
  simp only [handleMouseUpSelection, hw, hh]
  norm_num

/-- Witness for C8: the rectangle from `(0, 0)` to `(10, 10)`. -/
theorem small_selection_no_bookmark_witness :
    |(10 : ℚ) - 0| = 10 ∧ |(10 : ℚ) - 0| = 10 ∧
      handleMouseUpSelection 640 480 ⟨1, 0, 0⟩ 5 ⟨0, 0, 10, 10⟩ [] = [] :=
  ⟨by simp, by simp,
    small_selection_no_bookmark ⟨0, 0, 10, 10⟩ (by simp) (by simp)
      640 480 ⟨1, 0, 0⟩ 5 []⟩

/-- The 2D-panning branch of `handleMouseMove` in `FractalExplorer.tsx`:
translate the center by `−delta / currentZoom` in each axis; the zoom field
is spread through unchanged. -/
def panView (width height deltaX deltaY : ℚ) (prev : ViewState) : ViewState :=
  let currentZoom := min width height / (7 / 2) * prev.zoom
  ⟨prev.zoom, prev.centerX - deltaX / currentZoom,
   prev.centerY - deltaY / currentZoom⟩

/-- `easeInOutQuad` from `animateToBookmark`:
`t < 0.5 ? 2*t*t : -1 + (4 - 2*t)*t`. -/
def easeInOutQuad (t : ℚ) : ℚ :=
  if t < 1 / 2 then 2 * t * t else -1 + (4 - 2 * t) * t

/-- One frame tick of `animateToBookmark`: `progress =
min(elapsed/duration, 1)` with `duration = 2000`, eased by `easeInOutQuad`,
then each of `zoom`, `centerX`, `centerY` interpolated linearly between the
start snapshot and the bookmark's end state. -/
def animTickView (startState endState : ViewState) (elapsed : ℚ) : ViewState :=
  let duration : ℚ := 2000
  let progress := min (elapsed / duration) 1
  let eased := easeInOutQuad progress
  ⟨startState.zoom + (endState.zoom - startState.zoom) * eased,
   startState.centerX + (endState.centerX - startState.centerX) * eased,
   startState.centerY + (endState.centerY - startState.centerY) * eased⟩

/-- The three view-state operations of the View-State Controller: pan
(`handleMouseMove`), zoom-at-cursor (`handleWheel`), and an animation frame
(`animateToBookmark`). -/
inductive ViewOp where
  | pan (deltaX deltaY : ℚ)
  | wheel (mouseX mouseY deltaY : ℚ)
  | animTick (startState endState : ViewState) (elapsed : ℚ)
deriving DecidableEq

/-- Apply one view-state operation. -/
def applyOp (width height : ℚ) (v : ViewState) : ViewOp → ViewState
  | .pan dx dy => panView width height dx dy v
  | .wheel mx my dy => handleWheel width height mx my dy v
  | .animTick s0 s1 t => animTickView s0 s1 t

/-- Well-formedness of an operation as the claim assumes it: animation
frames interpolate between snapshots with positive zoom, and elapsed wall
time is nonnegative. -/
def WFOp : ViewOp → Prop
  | .pan _ _ => True
  | .wheel _ _ _ => True
  | .animTick s0 s1 t => 0 < s0.zoom ∧ 0 < s1.zoom ∧ 0 ≤ t

instance decWFOp : DecidablePred WFOp
  | .pan _ _ => isTrue trivial
  | .wheel _ _ _ => isTrue trivial
  | .animTick s0 s1 t =>
    inferInstanceAs (Decidable (0 < s0.zoom ∧ 0 < s1.zoom ∧ 0 ≤ t))

lemma easeInOutQuad_mem (t : ℚ) (h0 : 0 ≤ t) (h1 : t ≤ 1) :
    0 ≤ easeInOutQuad t ∧ easeInOutQuad t ≤ 1 := by
  unfold easeInOutQuad
  split
  case isTrue h =>
    constructor
    · positivity
    · nlinarith
  case isFalse h =>
    constructor
    · nlinarith
    · nlinarith

lemma animTickView_zoom_pos (s0 s1 : ViewState) (t : ℚ)
    (h0 : 0 < s0.zoom) (h1 : 0 < s1.zoom) (ht : 0 ≤ t) :
    0 < (animTickView s0 s1 t).zoom := by
  unfold animTickView
  have hp0 : 0 ≤ min (t / 2000) 1 := le_min (by positivity) zero_le_one
  have hp1 : min (t / 2000) 1 ≤ 1 := min_le_right _ _
  obtain ⟨he0, he1⟩ := easeInOutQuad_mem _ hp0 hp1
  set e := easeInOutQuad (min (t / 2000) 1) with hedef
  show 0 < s0.zoom + (s1.zoom - s0.zoom) * e
  rcases eq_or_lt_of_le he0 with he | he
  · rw [← he]
    simpa using h0
  · nlinarith [mul_pos h1 he, mul_nonneg (sub_nonneg.mpr he1) h0.le]

/-- **C9.** The invariant `zoom > 0` is preserved by every view-state
operation: pan leaves zoom unchanged, zoom-at-cursor multiplies it by `0.9`
or `1.1` (both positive), and every animation frame sets it to a convex
combination of the two positive start/end snapshot zooms (the clamped
ease-in-out quadratic maps progress into `[0, 1]`).  Hence, starting from
`zoom > 0`, any sequence of well-formed operations leaves zoom strictly
positive. -/
theorem zoom_pos_invariant (width height : ℚ) (ops : List ViewOp)
    (v : ViewState) (hwf : ∀ op ∈ ops, WFOp op) (hz : 0 < v.zoom) :
    0 < (ops.foldl (applyOp width height) v).zoom := by
  induction ops generalizing v with
  | nil => simpa using hz
  | cons op tl ih =>
    simp only [List.foldl_cons]
    refine ih _ (fun o ho => hwf o (List.mem_cons_of_mem _ ho)) ?_
    have hop := hwf op (List.mem_cons_self _ _)
    cases op with
    | pan dx dy => simpa [applyOp, panView] using hz
    | wheel mx my dy =>
      simp only [applyOp, handleWheel, zoomAtCursor]
      split
      · exact mul_pos hz (by norm_num)
      · exact mul_pos hz (by norm_num)
    | animTick s0 s1 t =>
      obtain ⟨h0, h1, ht⟩ := hop
      exact animTickView_zoom_pos s0 s1 t h0 h1 ht

/-- Witness for C9: starting from zoom `1` on a 7 × 7 canvas, a pan, a
zoom-out wheel step, and an animation frame toward a zoom-2 target. -/
theorem zoom_pos_invariant_witness :
    (∀ op ∈ [ViewOp.pan 1 2, ViewOp.wheel 3 4 1,
        ViewOp.animTick ⟨1, 0, 0⟩ ⟨2, 1, 1⟩ 500], WFOp op) ∧
      (0 : ℚ) < 1 ∧
      0 < ([ViewOp.pan 1 2, ViewOp.wheel 3 4 1,
          ViewOp.animTick ⟨1, 0, 0⟩ ⟨2, 1, 1⟩ 500].foldl
        (applyOp 7 7) ⟨1, 0, 0⟩).zoom :=
  ⟨by decide, by decide,
    zoom_pos_invariant 7 7
      [ViewOp.pan 1 2, ViewOp.wheel 3 4 1,
        ViewOp.animTick ⟨1, 0, 0⟩ ⟨2, 1, 1⟩ 500]
      ⟨1, 0, 0⟩ (by decide) (by decide)⟩

end Mandelbrot
